import Mathlib

set_option linter.unusedSectionVars false

/-!
Shallow embedding of `src/hash_map.hpp` (class `ics::HashMap<KEY,T,thash>`):
a separate-chaining hash table whose buckets are singly linked chains, each
ending in one trailer ("sentinel") node, with load-factor-triggered doubling
and a fail-fast external iterator.

Conventions of the embedding:

* A chain (a `LN*` list in the source) is a `List (K × V)`; the LAST element
  of the list is the trailer node (the node with `next == nullptr`).  A fresh
  trailer carries the default-constructed entry, matching `LN()`.
* The source loop `for (j = c; j->next != nullptr; j = j->next)` visits
  `c.dropLast`; the loop `for (j = c; j != nullptr; j = j->next)` visits all
  of `c` (trailer included).
* In the source, `bins` always equals the length of the allocated bucket
  array (every constructor, resize and assignment keeps them equal), so the
  embedding stores only the bucket list and reads the bin count off its
  length (`HashMap.bins`).
* The template parameters KEY and T become `K` and `V`.  The source compares
  keys against the literal `""` in the iterator and in `operator==` (these
  code paths only compile for string keys); for `K = String` the
  default-constructed key IS `""`, so those comparisons become comparisons
  with `default : K`.
* C++ exceptions become `Except Err`.  Dereferencing the null `next` of a
  trailer node (undefined behaviour in the source, reachable through
  `erase` of the default key) is modelled by the dedicated error value
  `Err.nullDeref`.
* C++ `int` becomes `Int` (`Int.tdiv` is C++ truncating division), the
  `double` load threshold becomes `ℚ` (exact for every double value), and
  the source comparison `new_used / bins <= load_threshold` compares the
  truncated integer quotient with the threshold, exactly as the source does.
* The iterator's cursor `pair<int,LN*> current` becomes a bucket index
  (`bin : Int`, `-1` when exhausted) plus the position of the node inside
  its chain (`pos : Option Nat`, `none` for the null pointer).  The node a
  pointer designates is the list element at that position, and the in-place
  removal `*current = *current->next; delete current->next` is the removal
  of the element at the cursor position, so the positional cursor tracks the
  source pointer exactly.  Iterator operations receive the current table
  state as an explicit argument (the source reaches it through `ref_map`).
-/

/-- The error conditions raised by the source (`ics_exceptions.hpp` kinds that
the modelled operations can raise), plus `nullDeref` standing for the
undefined behaviour of dereferencing a null `next` pointer. -/
inductive Err where
  | keyError
  | concurrentModification
  | cannotErase
  | iteratorPositionIllegal
  | nullDeref
  deriving DecidableEq

/-- State of `ics::HashMap`: the resolved hash binding, the bucket array
(`LN** map`), `load_threshold`, `used` and `mod_count`.  `bins` is the length
of `map` (see the header comment). -/
structure HashMap (K V : Type) where
  hash : K → Int
  map : List (List (K × V))
  load_threshold : ℚ
  used : Int
  mod_count : Nat

/-- State of `ics::HashMap::Iterator`: the cursor (`current.first` /
`current.second`), the generation snapshot and the erase permission flag. -/
structure HMIterator where
  bin : Int
  pos : Option Nat
  expected_mod_count : Nat
  can_erase : Bool

namespace HashMap

variable {K V : Type} [DecidableEq K] [DecidableEq V] [Inhabited K] [Inhabited V]

/-- The bucket count: the length of the bucket array. -/
def bins (t : HashMap K V) : Nat := t.map.length

/-- Source `hash_compress`: `abs(hash(key)) % bins`. -/
def hash_compress (t : HashMap K V) (key : K) : Nat :=
  (t.hash key).natAbs % t.bins

/-- Source `has_key`: scan every bin; in each chain visit the nodes before the
trailer (`j->next != nullptr`) and compare keys. -/
def has_key (t : HashMap K V) (key : K) : Bool :=
  t.map.any (fun c => c.dropLast.any (fun e => decide (e.1 = key)))

/-- Source `find_key`: scan every bin; in each chain visit ALL nodes
(`j != nullptr`), trailer included, and return the first node whose key
matches.  Returns the found node's entry (the source returns the `LN*`). -/
def find_key (key : K) : List (List (K × V)) → Option (K × V)
  | [] => none
  | c :: rest =>
    match c.find? (fun e => decide (e.1 = key)) with
    | some e => some e
    | none => find_key key rest

/-- Source `operator[] const`: return the value of the node `find_key`
produces, `KeyError` when it produces null. -/
def index_const (t : HashMap K V) (key : K) : Except Err V :=
  match find_key key t.map with
  | some e => .ok e.2
  | none => .error .keyError

/-- In-place value overwrite of the first key-matching node of a chain
(trailer included), as `put` does through the pointer returned by
`find_key`: `found_key->value.second = value`.  Returns the previous value
together with the updated chain, `none` when the chain has no match. -/
def updChain (key : K) (value : V) : List (K × V) → Option (V × List (K × V))
  | [] => none
  | e :: rest =>
    if e.1 = key then some (e.2, (e.1, value) :: rest)
    else
      match updChain key value rest with
      | some (old, c) => some (old, e :: c)
      | none => none

/-- `updChain` lifted over the bucket array in bin order, matching the scan
order of `find_key`. -/
def updBuckets (key : K) (value : V) :
    List (List (K × V)) → Option (V × List (List (K × V)))
  | [] => none
  | c :: rest =>
    match updChain key value c with
    | some (old, c2) => some (old, c2 :: rest)
    | none =>
      match updBuckets key value rest with
      | some (old, m2) => some (old, c :: m2)
      | none => none

/-- Removal of the first key-matching node of a chain, as `erase` performs it
on the node returned by `find_key`: copy the next node over the found node
and delete the next node, i.e. drop the element at the found position.  When
the found node is the trailer (`next == nullptr`), the source dereferences
the null `next`: modelled as `Err.nullDeref`.  `none` when no node of this
chain matches. -/
def eraseInChain (key : K) : List (K × V) → Option (Except Err (V × List (K × V)))
  | [] => none
  | e :: rest =>
    if e.1 = key then
      if rest.isEmpty then some (.error .nullDeref)
      else some (.ok (e.2, rest))
    else
      match eraseInChain key rest with
      | some (.ok (v, c)) => some (.ok (v, e :: c))
      | some (.error er) => some (.error er)
      | none => none

/-- `eraseInChain` lifted over the bucket array in bin order (the scan order
of `find_key`). -/
def eraseInBuckets (key : K) :
    List (List (K × V)) → Option (Except Err (V × List (List (K × V))))
  | [] => none
  | c :: rest =>
    match eraseInChain key c with
    | some (.ok (v, c2)) => some (.ok (v, c2 :: rest))
    | some (.error er) => some (.error er)
    | none =>
      match eraseInBuckets key rest with
      | some (.ok (v, m2)) => some (.ok (v, c :: m2))
      | some (.error er) => some (.error er)
      | none => none

/-- Source `erase`: locate the key's node via `find_key`; if found, copy the
next node over it, delete the next node, decrement `used`, increment
`mod_count` and return the removed value; otherwise raise `KeyError`. -/
def erase (t : HashMap K V) (key : K) : Except Err (V × HashMap K V) :=
  match eraseInBuckets key t.map with
  | some (.ok (v, m2)) =>
    .ok (v, { t with map := m2, used := t.used - 1, mod_count := t.mod_count + 1 })
  | some (.error er) => .error er
  | none => .error .keyError

/-- One chain of the rehousing loop of `ensure_load_threshold`: every node of
the old chain (`j != nullptr`, so the old trailer INCLUDED) is prepended to
the new bucket selected by `hash_compress` under the doubled bin count. -/
def rehouseChain (hash : K → Int) (newBins : Nat) :
    List (K × V) → List (List (K × V)) → List (List (K × V))
  | [], acc => acc
  | e :: rest, acc =>
    let i := (hash e.1).natAbs % newBins
    rehouseChain hash newBins rest (acc.set i (e :: acc.getD i []))

/-- Source `ensure_load_threshold(new_used)`: if `new_used / bins` (C++
integer division) is at most `load_threshold`, do nothing; otherwise double
`bins`, allocate fresh buckets each holding one trailer, and rehouse every
node of every old bucket (`for i < bins/2`, i.e. all old buckets). -/
def ensure_load_threshold (t : HashMap K V) (new_used : Int) : HashMap K V :=
  if ((Int.tdiv new_used (t.bins : Int) : Int) : ℚ) ≤ t.load_threshold then t
  else
    let newBins := 2 * t.bins
    let fresh : List (List (K × V)) :=
      List.replicate newBins [((default : K), (default : V))]
    { t with map := t.map.foldl (fun acc c => rehouseChain t.hash newBins c acc) fresh }

/-- Source `put`: `hash_index` is computed FIRST, from the bin count at entry.
If the key is present (`has_key`), overwrite the value of the node `find_key`
returns and return the previous value (early return: no `mod_count` change).
Otherwise increment `used`, run `ensure_load_threshold`, prepend a new node to
bucket `hash_index` (the stale pre-resize index), increment `mod_count`, and
return the value of the just-prepended head node, which is `value`. -/
def put (t : HashMap K V) (key : K) (value : V) : V × HashMap K V :=
  let hash_index := t.hash_compress key
  if t.has_key key then
    match updBuckets key value t.map with
    | some (old, m2) => (old, { t with map := m2 })
    | none => (value, t) -- unreachable: has_key implies find_key finds a node
  else
    let t1 := ensure_load_threshold { t with used := t.used + 1 } (t.used + 1)
    let t2 := { t1 with
      map := t1.map.set hash_index ((key, value) :: t1.map.getD hash_index []),
      mod_count := t1.mod_count + 1 }
    (value, t2)

/-- Source `clear`: every bucket keeps only its node with `next == nullptr`
(its last node); `used` becomes 0; `mod_count` is incremented once. -/
def clear (t : HashMap K V) : HashMap K V :=
  { t with
    map := t.map.map (fun c => match c.getLast? with | some e => [e] | none => []),
    used := 0,
    mod_count := t.mod_count + 1 }

/-- Source `copy_list`: copy a chain node by node, replacing the trailer by a
fresh default-constructed trailer (`if (l->next == nullptr) return new LN()`).
The empty case is unreachable in the source (bucket heads are never null). -/
def copy_list : List (K × V) → List (K × V)
  | [] => []
  | e :: rest =>
    if rest.isEmpty then [((default : K), (default : V))]
    else e :: copy_list rest

/-- Source `copy_hash_table`: `map[i] = copy_list(ht[i])` for every bin. -/
def copy_hash_table (m : List (List (K × V))) : List (List (K × V)) :=
  m.map copy_list

/-- Source `operator=` (for distinct objects; self-assignment returns early):
copies `load_threshold`, `bins`, `used`, `hash` and the bucket contents from
`rhs`.  `mod_count` is not mentioned by the source and keeps its value. -/
def assign (t rhs : HashMap K V) : HashMap K V :=
  { t with
    load_threshold := rhs.load_threshold,
    used := rhs.used,
    hash := rhs.hash,
    map := copy_hash_table rhs.map }

/-- Concatenation of a list of chains (bucket-ascending, then chain order). -/
def joinAll : List (List (K × V)) → List (K × V)
  | [] => []
  | c :: rest => c ++ joinAll rest

/-- The live entries of the table: every node before a trailer, in
bucket-ascending then chain order. -/
def liveEntries (t : HashMap K V) : List (K × V) :=
  joinAll (t.map.map List.dropLast)

/-- Specification-side lookup: the value of the first live entry carrying the
key, over the live entries alone. -/
def lookupLiveV (t : HashMap K V) (key : K) : Option V :=
  ((liveEntries t).find? (fun e => decide (e.1 = key))).map (fun e => e.2)

/-- Inner loop of source `operator==` over one chain (nodes before the
trailer): a node whose key compares equal to `""` (the default key) BREAKS
out of the chain scan; otherwise the node's value is compared with
`rhs[key]`, whose `KeyError` propagates; a value mismatch returns `false`
from the whole comparison. -/
def eqChain (rhs : HashMap K V) : List (K × V) → Except Err Bool
  | [] => .ok true
  | e :: rest =>
    if e.1 = (default : K) then .ok true
    else
      match index_const rhs e.1 with
      | .error er => .error er
      | .ok v => if e.2 ≠ v then .ok false else eqChain rhs rest

/-- Outer loop of source `operator==` over the bucket array. -/
def eqBuckets (rhs : HashMap K V) : List (List (K × V)) → Except Err Bool
  | [] => .ok true
  | c :: rest =>
    match eqChain rhs c.dropLast with
    | .ok true => eqBuckets rhs rest
    | r => r

/-- Source `operator==` (for distinct objects; `this == &rhs` returns `true`
early): `false` when the `used` counts differ, otherwise the bucket scan. -/
def eqOp (t rhs : HashMap K V) : Except Err Bool :=
  if t.used ≠ rhs.used then .ok false else eqBuckets rhs t.map

/-- Table equality in the words of claim C6 (the specification-side notion,
used to compare with `eqOp`; it is not part of the source): same `used`
count, and every live entry of the left table has a matching value for the
same key in the right table. -/
def specTablesEqual (t rhs : HashMap K V) : Bool :=
  decide (t.used = rhs.used) &&
  (liveEntries t).all (fun e => decide (lookupLiveV rhs e.1 = some e.2))

/-- Source default constructor (with a resolved hash): one bin holding one
trailer node, `used = 0`, `mod_count = 0`. -/
def mkMap (load_threshold : ℚ) (hash : K → Int) : HashMap K V :=
  { hash := hash,
    map := [[((default : K), (default : V))]],
    load_threshold := load_threshold,
    used := 0,
    mod_count := 0 }

/-- Source bins constructor (with a resolved hash): `initial_bins` buckets,
each holding one trailer node. -/
def mkMapBins (initial_bins : Nat) (load_threshold : ℚ) (hash : K → Int) :
    HashMap K V :=
  { hash := hash,
    map := List.replicate initial_bins [((default : K), (default : V))],
    load_threshold := load_threshold,
    used := 0,
    mod_count := 0 }

/-- Helper of the `Iterator` constructor for `begin`: the first bin whose
head node has `next != nullptr` (a chain of length above one); the scan sets
the cursor there and breaks. -/
def firstNonTrivialBucket : List (List (K × V)) → Nat → Option Nat
  | [], _ => none
  | c :: rest, i =>
    if 1 < c.length then some i else firstNonTrivialBucket rest (i + 1)

/-- Inner loop of `advance_cursors` over one chain: the first node before the
trailer whose key differs from `""` (the default key); returns its position
in the chain. -/
def firstLiveIdx : List (K × V) → Option Nat
  | [] => none
  | e :: rest =>
    if e.1 ≠ (default : K) then some 0
    else (firstLiveIdx rest).map (fun q => q + 1)

/-- Outer loop of `advance_cursors`: scan the buckets from a given bin index
upward for the first chain holding a node that passes `firstLiveIdx`. -/
def findLiveFromBuckets : Nat → List (List (K × V)) → Option (Nat × Nat)
  | _, [] => none
  | i, c :: rest =>
    match firstLiveIdx c.dropLast with
    | some q => some (i, q)
    | none => findLiveFromBuckets (i + 1) rest

/-- Source `advance_cursors` from a positioned cursor `(bin, p)`: if the
key of the NEXT node in the chain differs from `""` move to it; otherwise
scan the following buckets (`current.first + 1` up to `bins - 1`) for the
next node with a non-`""` key; exhausted (`(-1, nullptr)`) when none is
found.  (When the cursor sits on a trailer the source would dereference a
null pointer; the `getD` default makes that case take the scan branch, and
well-formed use never reaches it.) -/
def advance_cursors (t : HashMap K V) (bin : Int) (p : Nat) : Int × Option Nat :=
  let c := t.map.getD bin.toNat []
  let nxt := c.getD (p + 1) ((default : K), (default : V))
  if nxt.1 ≠ (default : K) then (bin, some (p + 1))
  else
    match findLiveFromBuckets (bin.toNat + 1) (t.map.drop (bin.toNat + 1)) with
    | some (i, q) => ((i : Int), some q)
    | none => (-1, none)

/-- Source `begin` (the `Iterator` constructor with `from_begin = true`):
exhausted when the table is empty; otherwise the head of the first bucket
whose head is not the trailer.  When the table claims to be non-empty but no
such bucket exists the source leaves the cursor uninitialised (unreachable in
well-formed states); modelled as exhausted. -/
def begin (t : HashMap K V) : HMIterator :=
  if t.used = 0 then ⟨-1, none, t.mod_count, true⟩
  else
    match firstNonTrivialBucket t.map 0 with
    | some i => ⟨(i : Int), some 0, t.mod_count, true⟩
    | none => ⟨-1, none, t.mod_count, true⟩

/-- Source `end` (the `Iterator` constructor with `from_begin = false`):
always exhausted. -/
def iterEnd (t : HashMap K V) : HMIterator := ⟨-1, none, t.mod_count, true⟩

/-- Source `Iterator::operator++` (prefix): concurrent-modification gate
first; a null cursor returns unchanged; otherwise advance, or just restore
`can_erase` after an erase-at-cursor. -/
def incOp (t : HashMap K V) (it : HMIterator) : Except Err HMIterator :=
  if it.expected_mod_count ≠ t.mod_count then .error .concurrentModification
  else
    match it.pos with
    | none => .ok it
    | some p =>
      if it.can_erase then
        let c := advance_cursors t it.bin p
        .ok { it with bin := c.1, pos := c.2 }
      else .ok { it with can_erase := true }

/-- Source `Iterator::operator*`: concurrent-modification gate first;
`IteratorPositionIllegal` when `can_erase` is false or the cursor is null;
otherwise the entry under the cursor. -/
def derefOp (t : HashMap K V) (it : HMIterator) : Except Err (K × V) :=
  if it.expected_mod_count ≠ t.mod_count then .error .concurrentModification
  else if it.can_erase = false then .error .iteratorPositionIllegal
  else
    match it.pos with
    | none => .error .iteratorPositionIllegal
    | some p => .ok ((t.map.getD it.bin.toNat []).getD p ((default : K), (default : V)))

/-- Source `Iterator::erase`: concurrent-modification gate first; then the
two `CannotEraseError` gates; then remember the entry under the cursor,
pre-advance the cursor when the next node is the trailer
(`current.second->next->next == nullptr`, i.e. the cursor sits on the last
live node of its chain), remove through `HashMap::erase` on the remembered
key, and resynchronise the generation snapshot with `can_erase = false`. -/
def iterErase (t : HashMap K V) (it : HMIterator) :
    Except Err ((K × V) × HashMap K V × HMIterator) :=
  if it.expected_mod_count ≠ t.mod_count then .error .concurrentModification
  else if it.can_erase = false then .error .cannotErase
  else
    match it.pos with
    | none => .error .cannotErase
    | some p =>
      let c := t.map.getD it.bin.toNat []
      let entry := c.getD p ((default : K), (default : V))
      let cursor :=
        if p + 2 = c.length then advance_cursors t it.bin p else (it.bin, some p)
      match t.erase entry.1 with
      | .error er => .error er
      | .ok (_, t2) => .ok (entry, t2, ⟨cursor.1, cursor.2, t2.mod_count, false⟩)

/-- A full traversal loop: from `begin`, dereference then advance until the
cursor is exhausted (`it != end()` is exactly `pos ≠ none` for iterators of
one table), collecting the entries.  The fuel bounds the number of steps by
the total node count plus the bin count, which the loop can never exceed. -/
def traverseAux (t : HashMap K V) : Nat → HMIterator → List (K × V)
  | 0, _ => []
  | fuel + 1, it =>
    match it.pos with
    | none => []
    | some _ =>
      match derefOp t it, incOp t it with
      | .ok e, .ok it2 => e :: traverseAux t fuel it2
      | _, _ => []

/-- Entries yielded by iterating the table from `begin` to exhaustion. -/
def traverse (t : HashMap K V) : List (K × V) :=
  traverseAux t ((t.map.map List.length).foldl (· + ·) 0 + t.bins + 1) t.begin

/-- Claim C5/C10 shorthand: the three modelled iterator operations all fail
with `ConcurrentModificationError` against table state `t`. -/
def CMEAll (t : HashMap K V) (it : HMIterator) : Prop :=
  incOp t it = .error .concurrentModification ∧
  derefOp t it = .error .concurrentModification ∧
  iterErase t it = .error .concurrentModification

/-- Claim C5/C10 shorthand: none of the three modelled iterator operations
fails with `ConcurrentModificationError` against table state `t`. -/
def NoCME (t : HashMap K V) (it : HMIterator) : Prop :=
  incOp t it ≠ .error .concurrentModification ∧
  derefOp t it ≠ .error .concurrentModification ∧
  iterErase t it ≠ .error .concurrentModification

/-- Claim C6 hypothesis: every bucket's last node (the trailer, in
well-formed states) carries the default key. -/
def sentinelKeysOk (t : HashMap K V) : Bool :=
  t.map.all (fun c =>
    match c.getLast? with
    | some e => decide (e.1 = (default : K))
    | none => true)

/-- Claim C6 hypothesis: no live entry carries the default key. -/
def noDefaultLiveKeys (t : HashMap K V) : Bool :=
  (liveEntries t).all (fun e => decide (e.1 ≠ (default : K)))

end HashMap

open HashMap

/-- Hash function of the concrete instances: `"b"` hashes to 1, every other
string to 0. -/
def exHash : String → Int := fun s => if s = "b" then 1 else 0

/-- One-half as an explicitly reduced rational (kernel-computable). -/
def halfQ : ℚ := ⟨1, 2, by decide, by decide⟩

/-- Empty map: bins = 1, load_threshold = 1.0 (the default). -/
def exEmpty : HashMap String Nat := mkMap 1 exHash

/-- `exEmpty` after `put("a", 1)` (no resize: 1/1 = 1 ≤ 1). -/
def exA : HashMap String Nat := (exEmpty.put "a" 1).2

/-- `exA` after `put("b", 2)`.  This second insertion doubles the bins
(2/1 = 2 > 1): the trailer of the single old bucket is rehoused as a live
node, and the new node for `"b"` is prepended to bucket 0, the index
computed before the resize, although `hash_compress("b")` is now 1. -/
def exAB : HashMap String Nat := (exA.put "b" 2).2

/-- `exA` after a successful `erase("a")` (the table component). -/
def exAErased : HashMap String Nat :=
  match exA.erase "a" with
  | .ok (_, t2) => t2
  | .error _ => exA

/-- Map with load_threshold 10 (no resize in the scenarios below). -/
def exNoResize : HashMap String Nat := mkMap 10 exHash

/-- `exNoResize` after `put("", 1)`: a live node with the default key. -/
def exE1 : HashMap String Nat := (exNoResize.put "" 1).2

/-- `exE1` after `put("a", 2)`: bucket chain `("a",2), ("",1), trailer`. -/
def exE1A : HashMap String Nat := (exE1.put "a" 2).2

/-- Left table of the C6 counterexample: holds the live entry `("", 1)`. -/
def exQ1 : HashMap String Nat := ((mkMap 10 exHash : HashMap String Nat).put "" 1).2

/-- Right table of the C6 counterexample: holds the live entry `("", 2)`. -/
def exQ2 : HashMap String Nat := ((mkMap 10 exHash : HashMap String Nat).put "" 2).2

/-- C6 witness: `"a" ↦ 1` then `"b" ↦ 2` into a 1-bin table. -/
def exW1 : HashMap String Nat :=
  (((mkMap 10 exHash : HashMap String Nat).put "a" 1).2.put "b" 2).2

/-- C6 witness: the same two entries in the other order into a 2-bin table. -/
def exW2 : HashMap String Nat :=
  (((mkMapBins 2 10 exHash : HashMap String Nat).put "b" 2).2.put "a" 1).2

/-- C9 table: 4 bins, load_threshold 0.5. -/
def exHalf4 : HashMap String Nat := mkMapBins 4 halfQ exHash

/-- `exHalf4` after inserting two distinct keys. -/
def exHalf4ab : HashMap String Nat :=
  ((exHalf4.put "a" 10).2.put "b" 11).2

/-- `exHalf4ab` after inserting a third distinct key: `used` reaches 3 with 4
bins, yet the truncated check `3 / 4 = 0 ≤ 0.5` triggers no resize. -/
def exHalf4abc : HashMap String Nat := (exHalf4ab.put "c" 12).2


namespace HashMap

variable {K V : Type} [DecidableEq K] [DecidableEq V] [Inhabited K] [Inhabited V]

theorem ensure_mod_count (t : HashMap K V) (n : Int) :
    (ensure_load_threshold t n).mod_count = t.mod_count := by
  unfold ensure_load_threshold
  split <;> rfl

theorem put_mod_count_new (t : HashMap K V) (k : K) (v : V)
    (h : t.has_key k = false) :
    (t.put k v).2.mod_count = t.mod_count + 1 := by
  simp only [put, h, Bool.false_eq_true, if_false]
  rw [ensure_mod_count]

theorem put_mod_count_overwrite (t : HashMap K V) (k : K) (v : V)
    (h : t.has_key k = true) :
    (t.put k v).2.mod_count = t.mod_count := by
  simp only [put, h, if_true]
  cases hub : updBuckets k v t.map with
  | none => rfl
  | some p => rfl

theorem erase_ok_mod_count (t : HashMap K V) (k : K) (v : V) (t2 : HashMap K V)
    (h : t.erase k = .ok (v, t2)) : t2.mod_count = t.mod_count + 1 := by
  unfold erase at h
  cases heb : eraseInBuckets k t.map with
  | none => rw [heb] at h; cases h
  | some r =>
    cases r with
    | error er => rw [heb] at h; cases h
    | ok p =>
      rw [heb] at h
      cases h
      rfl

theorem clear_mod_count (t : HashMap K V) :
    t.clear.mod_count = t.mod_count + 1 := rfl

theorem cmeAll_of_ne (t : HashMap K V) (it : HMIterator)
    (h : it.expected_mod_count ≠ t.mod_count) : CMEAll t it := by
  refine ⟨?_, ?_, ?_⟩ <;> simp [incOp, derefOp, iterErase, h]

theorem eraseInChain_error (k : K) :
    ∀ (c : List (K × V)) (er : Err),
      eraseInChain k c = some (.error er) → er = .nullDeref := by
  intro c
  induction c with
  | nil => intro er h; simp [eraseInChain] at h
  | cons e rest ih =>
    intro er h
    by_cases hk : e.1 = k
    · by_cases hr : rest.isEmpty
      · simp [eraseInChain, hk, hr] at h
        exact h.symm
      · simp [eraseInChain, hk, hr] at h
    · cases hrec : eraseInChain k rest with
      | none => simp [eraseInChain, hk, hrec] at h
      | some r =>
        cases r with
        | ok p => simp [eraseInChain, hk, hrec] at h
        | error er2 =>
          simp [eraseInChain, hk, hrec] at h
          rw [← h]
          exact ih er2 hrec

theorem eraseInBuckets_error (k : K) :
    ∀ (m : List (List (K × V))) (er : Err),
      eraseInBuckets k m = some (.error er) → er = .nullDeref := by
  intro m
  induction m with
  | nil => intro er h; simp [eraseInBuckets] at h
  | cons c rest ih =>
    intro er h
    cases hc : eraseInChain k c with
    | some r =>
      cases r with
      | ok p => simp [eraseInBuckets, hc] at h
      | error er2 =>
        simp [eraseInBuckets, hc] at h
        rw [← h]
        exact eraseInChain_error k c er2 hc
    | none =>
      cases hrec : eraseInBuckets k rest with
      | none => simp [eraseInBuckets, hc, hrec] at h
      | some r =>
        cases r with
        | ok p => simp [eraseInBuckets, hc, hrec] at h
        | error er2 =>
          simp [eraseInBuckets, hc, hrec] at h
          rw [← h]
          exact ih er2 hrec

theorem erase_ne_cme (t : HashMap K V) (k : K) :
    t.erase k ≠ .error .concurrentModification := by
  intro h
  unfold erase at h
  cases heb : eraseInBuckets k t.map with
  | none => rw [heb] at h; simp at h
  | some r =>
    cases r with
    | ok p => rw [heb] at h; simp at h
    | error er =>
      rw [heb] at h
      simp at h
      have := eraseInBuckets_error k t.map er heb
      rw [h] at this
      cases this

theorem noCME_of_sync (t : HashMap K V) (it : HMIterator)
    (h : it.expected_mod_count = t.mod_count) : NoCME t it := by
  refine ⟨?_, ?_, ?_⟩
  · simp only [incOp, h, ne_eq, not_true_eq_false, if_false, ite_false]
    split
    · simp
    · split <;> simp
  · simp only [derefOp, h, ne_eq, not_true_eq_false, if_false, ite_false]
    split
    · simp
    · split <;> simp
  · simp only [iterErase, h, ne_eq, not_true_eq_false, if_false, ite_false]
    split
    · simp
    · split
      · simp
      · split
        next p her =>
          intro hcontra
          injection hcontra with h2
          exact erase_ne_cme _ _ (by rw [her, h2])
        next => simp

theorem rehouseChain_length (hash : K → Int) (nb : Nat) :
    ∀ (c : List (K × V)) (acc : List (List (K × V))),
      (rehouseChain hash nb c acc).length = acc.length := by
  intro c
  induction c with
  | nil => intro acc; rfl
  | cons e rest ih =>
    intro acc
    simp only [rehouseChain]
    rw [ih]
    exact List.length_set acc _ _

theorem foldl_rehouse_length (hash : K → Int) (nb : Nat) :
    ∀ (m : List (List (K × V))) (acc : List (List (K × V))),
      (m.foldl (fun a c => rehouseChain hash nb c a) acc).length = acc.length := by
  intro m
  induction m with
  | nil => intro acc; rfl
  | cons c rest ih =>
    intro acc
    rw [List.foldl_cons, ih, rehouseChain_length]

theorem ensure_bins_eq (t : HashMap K V) (n : Int) :
    (ensure_load_threshold t n).bins =
      if ((Int.tdiv n (t.bins : Int) : Int) : ℚ) ≤ t.load_threshold
      then t.bins else 2 * t.bins := by
  by_cases hc : ((Int.tdiv n (t.bins : Int) : Int) : ℚ) ≤ t.load_threshold
  · rw [if_pos hc]
    unfold ensure_load_threshold
    rw [if_pos hc]
  · rw [if_neg hc]
    unfold ensure_load_threshold
    rw [if_neg hc]
    simp only [bins, foldl_rehouse_length, List.length_replicate]

theorem copy_list_ne_nil : ∀ c : List (K × V), c ≠ [] → copy_list c ≠ [] := by
  intro c hc
  cases c with
  | nil => exact absurd rfl hc
  | cons e rest =>
    simp only [copy_list]
    split <;> simp

theorem dropLast_cons_ne_nil (e : K × V) :
    ∀ l : List (K × V), l ≠ [] → (e :: l).dropLast = e :: l.dropLast := by
  intro l hl
  cases l with
  | nil => exact absurd rfl hl
  | cons a r => rfl

theorem copy_list_dropLast : ∀ c : List (K × V), (copy_list c).dropLast = c.dropLast := by
  intro c
  induction c with
  | nil => rfl
  | cons e rest ih =>
    by_cases hr : rest.isEmpty
    · have hnil : rest = [] := by
        cases rest with
        | nil => rfl
        | cons a r => simp [List.isEmpty] at hr
      subst hnil
      simp [copy_list]
    · have hne : rest ≠ [] := by
        cases rest with
        | nil => simp [List.isEmpty] at hr
        | cons a r => simp
      simp only [copy_list, hr, if_false, Bool.false_eq_true]
      rw [dropLast_cons_ne_nil e rest hne,
          dropLast_cons_ne_nil e (copy_list rest) (copy_list_ne_nil rest hne), ih]

theorem copy_hash_table_dropLast :
    ∀ m : List (List (K × V)),
      (copy_hash_table m).map List.dropLast = m.map List.dropLast := by
  intro m
  induction m with
  | nil => rfl
  | cons c rest ih =>
    show List.dropLast (copy_list c) :: _ = _
    rw [copy_list_dropLast]
    exact congrArg _ ih

end HashMap

/-- Claim C1: on a fresh key, `put` is claimed to insert the node at the front
of the key's bucket chain.  Concrete run (`exEmpty` has 1 bin, threshold 1.0;
`exHash` maps `"b"` to 1 and everything else to 0): `put("a",1)` then
`put("b",2)`.  The second `put` computes `hash_index` BEFORE the load check,
the check doubles the bins, and the node for `"b"` is prepended to bucket 0
even though `hash_compress("b")` is 1 in the resized table; bucket 1 holds no
live node with key `"b"`. -/
theorem C1_put_new_key_lands_in_stale_bucket :
    exAB.hash_compress "b" = 1 ∧
    (exAB.map.getD 1 []).dropLast.any (fun e => decide (e.1 = "b")) = false ∧
    (exAB.map.getD 0 []).getD 0 ((default : String), (default : Nat)) = ("b", 2) :=
  ⟨by decide, by decide, by decide⟩

/-- Claim C2: `erase` on an absent key is claimed to fail with KeyError.  On
the empty table and the (never inserted) default key `""`, `find_key` matches
the trailer node, and the source then dereferences the trailer's null `next`
pointer (modelled `Err.nullDeref`) instead of raising KeyError. -/
theorem C2_erase_absent_default_key_crashes :
    exEmpty.has_key "" = false ∧ exEmpty.erase "" = .error .nullDeref :=
  ⟨by decide, rfl⟩

/-- Claim C3: the resize is claimed to preserve the live entries exactly, with
no extra entries.  After the doubling forced by the second insertion
(`exAB` = `put("a",1)` then `put("b",2)` into a 1-bin table), the rehousing
loop has also copied the old bucket's trailer node as a live node: the table
holds 3 live entries while `used` is 2, and `has_key("")` is true although
`""` was never inserted. -/
theorem C3_resize_copies_trailer_as_live_entry :
    exAB.used = 2 ∧ (liveEntries exAB).length = 3 ∧ exAB.has_key "" = true :=
  ⟨by decide, by decide, by decide⟩

/-- Claim C4: a full traversal is claimed to yield exactly `used` entries.
With `exE1A` = `put("",1)` then `put("a",2)` into a 1-bin table (threshold 10,
no resize), the bucket chain is `("a",2), ("",1), trailer`; `advance_cursors`
treats the live node keyed `""` as a trailer and the traversal stops after
one entry although `used` is 2 (and the last value put for `""` is lost). -/
theorem C4_iteration_skips_default_key_entry :
    exE1A.used = 2 ∧ traverse exE1A = [("a", 2)] :=
  ⟨by decide, by decide⟩

/-- Claim C7: every live node is claimed to reside in the bucket indexed by
`hash_compress` of its key, in particular right after a put-triggered resize.
In `exAB` (see C1), bucket 0 holds a live node (the one keyed `"b"`) whose
compressed hash is 1, not 0. -/
theorem C7_live_node_outside_its_hash_bucket :
    (exAB.map.getD 0 []).dropLast.any
      (fun e => decide (exAB.hash_compress e.1 ≠ 0)) = true :=
  by decide

/-- Claim C8: for a key that is not live (here the never-inserted default key
`""` on the empty table), `has_key` is indeed false, but the const indexed
read does NOT fail with KeyError: `find_key` scans into the trailer node,
matches its default key, and the operator returns the trailer's
(uninitialised, modelled as default) value. -/
theorem C8_index_const_returns_trailer_value_for_default_key :
    exEmpty.has_key "" = false ∧
    exEmpty.index_const "" = .ok 0 ∧
    exEmpty.index_const "" ≠ .error .keyError :=
  ⟨by decide, rfl, fun h => Except.noConfusion h⟩

/-- Claim C5: once the table undergoes a structural mutation not performed
through the iterator — `put` of a fresh key, a successful `erase`, or
`clear` — every modelled iterator operation (advance, dereference,
erase-at-cursor) fails with ConcurrentModificationError; whereas a `put`
that only overwrites an existing key leaves `mod_count` unchanged and no
iterator operation raises that error. -/
theorem C5_iterator_fail_fast {K V : Type} [DecidableEq K] [DecidableEq V]
    [Inhabited K] [Inhabited V] (t : HashMap K V) (it : HMIterator)
    (h : it.expected_mod_count = t.mod_count) :
    (∀ k v, t.has_key k = false → CMEAll (t.put k v).2 it) ∧
    (∀ k v t2, t.erase k = .ok (v, t2) → CMEAll t2 it) ∧
    CMEAll t.clear it ∧
    (∀ k v, t.has_key k = true →
      (t.put k v).2.mod_count = t.mod_count ∧ NoCME (t.put k v).2 it) := by
  refine ⟨?_, ?_, ?_, ?_⟩
  · intro k v hk
    apply cmeAll_of_ne
    rw [h, put_mod_count_new t k v hk]
    omega
  · intro k v t2 he
    apply cmeAll_of_ne
    rw [h, erase_ok_mod_count t k v t2 he]
    omega
  · apply cmeAll_of_ne
    rw [h, clear_mod_count]
    omega
  · intro k v hk
    have hm := put_mod_count_overwrite t k v hk
    exact ⟨hm, noCME_of_sync _ it (by rw [h, hm])⟩

/-- Witness for C5: the table `exA` with its own `begin` iterator; a fresh-key
put, a successful erase and a clear each trip all three operations, while the
overwriting `put("a",5)` leaves `mod_count` unchanged and trips none. -/
theorem C5_iterator_fail_fast_witness :
    CMEAll (exA.put "b" 2).2 (begin exA) ∧
    CMEAll exAErased (begin exA) ∧
    CMEAll exA.clear (begin exA) ∧
    ((exA.put "a" 5).2.mod_count = exA.mod_count ∧
      NoCME (exA.put "a" 5).2 (begin exA)) :=
  have h := C5_iterator_fail_fast exA (begin exA) rfl
  ⟨h.1 "b" 2 (by decide), h.2.1 "a" 1 exAErased rfl, h.2.2.1,
    h.2.2.2 "a" 5 (by decide)⟩

theorem halfQ_eq : halfQ = 1 / 2 := by
  unfold halfQ
  rw [Rat.mk'_eq_divInt, Rat.divInt_eq_div]
  norm_num

/-- Claim C9 counterexample: with load_threshold 0.5 and 4 bins, inserting the
third distinct key leaves the bin count at 4, although the true fractional
occupancy 3/4 exceeds the threshold — the claim asserts this very input
triggers a doubling.  The source compares the truncated integer quotient
`3 / 4 = 0` with the threshold. -/
theorem C9_counterexample_truncated_check_skips_resize :
    exHalf4abc.used = 3 ∧ exHalf4abc.bins = 4 ∧
    exHalf4abc.load_threshold = halfQ ∧
    ¬ ((exHalf4abc.used : ℚ) / (exHalf4abc.bins : ℚ) ≤ exHalf4abc.load_threshold) := by
  have h1 : exHalf4abc.used = 3 := by decide
  have h2 : exHalf4abc.bins = 4 := by decide
  have h3 : exHalf4abc.load_threshold = halfQ := rfl
  refine ⟨h1, h2, h3, ?_⟩
  rw [h1, h2, h3, halfQ_eq]
  norm_num

/-- Claim C9 as amended: after `put` of a fresh key, the bin count doubles
exactly when the TRUNCATED integer quotient of the new `used` by the bin
count (C++ `int` division) exceeds `load_threshold`; the fractional part of
the occupancy is discarded before the comparison. -/
theorem C9_resize_condition_uses_truncated_quotient {K V : Type}
    [DecidableEq K] [DecidableEq V] [Inhabited K] [Inhabited V]
    (t : HashMap K V) (k : K) (v : V) (h : t.has_key k = false) :
    (t.put k v).2.bins =
      if ((Int.tdiv (t.used + 1) (t.bins : Int) : Int) : ℚ) ≤ t.load_threshold
      then t.bins else 2 * t.bins := by
  have hens := ensure_bins_eq ({ t with used := t.used + 1 }) (t.used + 1)
  simp only [put, h, Bool.false_eq_true, if_false]
  simp only [bins, List.length_set] at hens ⊢
  exact hens

/-- Witness for the amended C9: inserting the third key into the 4-bin,
threshold-0.5 table obeys the truncated-quotient rule. -/
theorem C9_resize_condition_witness :
    exHalf4ab.has_key "c" = false ∧
    (exHalf4ab.put "c" 12).2.bins =
      (if ((Int.tdiv (exHalf4ab.used + 1) (exHalf4ab.bins : Int) : Int) : ℚ) ≤
          exHalf4ab.load_threshold
       then exHalf4ab.bins else 2 * exHalf4ab.bins) :=
  ⟨by decide, C9_resize_condition_uses_truncated_quotient exHalf4ab "c" 12 (by decide)⟩

/-- Claim C10: copy-assignment replaces `load_threshold`, `used`, the hash
binding, the bin count and the stored entries with copies of the right-hand
side's, but never changes `mod_count`; consequently a pre-existing iterator
whose snapshot matches the table's generation still passes the
concurrent-modification check afterwards: none of its operations raises
ConcurrentModificationError, and they run against the table's replaced
fields. -/
theorem C10_assignment_spares_mod_count {K V : Type} [DecidableEq K]
    [DecidableEq V] [Inhabited K] [Inhabited V] (t rhs : HashMap K V)
    (it : HMIterator) (h : it.expected_mod_count = t.mod_count) :
    (assign t rhs).mod_count = t.mod_count ∧
    (assign t rhs).used = rhs.used ∧
    (assign t rhs).load_threshold = rhs.load_threshold ∧
    (assign t rhs).hash = rhs.hash ∧
    (assign t rhs).bins = rhs.bins ∧
    liveEntries (assign t rhs) = liveEntries rhs ∧
    NoCME (assign t rhs) it := by
  refine ⟨rfl, rfl, rfl, rfl, ?_, ?_, ?_⟩
  · show (copy_hash_table rhs.map).length = rhs.map.length
    simp [copy_hash_table]
  · show joinAll ((copy_hash_table rhs.map).map List.dropLast) = _
    rw [copy_hash_table_dropLast]
    rfl
  · exact noCME_of_sync _ it h

/-- Witness for C10 at concrete inputs. -/
theorem C10_assignment_witness :
    (assign exA exW2).mod_count = exA.mod_count ∧
    (assign exA exW2).used = exW2.used ∧
    (assign exA exW2).load_threshold = exW2.load_threshold ∧
    (assign exA exW2).hash = exW2.hash ∧
    (assign exA exW2).bins = exW2.bins ∧
    liveEntries (assign exA exW2) = liveEntries exW2 ∧
    NoCME (assign exA exW2) (begin exA) :=
  C10_assignment_spares_mod_count exA exW2 (begin exA) rfl

/-- Claim C6 counterexample: `exQ1` holds the single live entry `("",1)`,
`exQ2` holds `("",2)`.  `used` counts agree, but the one live entry of the
left table has no matching value in the right table, so the claimed
equivalence demands `false`.  The source scan breaks out of the bucket at the
first key comparing equal to `""` and returns `true`. -/
theorem C6_counterexample_default_key_breaks_scan :
    eqOp exQ1 exQ2 = .ok true ∧ specTablesEqual exQ1 exQ2 = false :=
  ⟨rfl, by decide⟩

namespace HashMap

variable {K V : Type} [DecidableEq K] [DecidableEq V] [Inhabited K] [Inhabited V]

theorem chain_find_skip_trailer (k : K) (hk : k ≠ (default : K)) :
    ∀ c : List (K × V), (∀ e, c.getLast? = some e → e.1 = (default : K)) →
      c.find? (fun e => decide (e.1 = k)) =
        c.dropLast.find? (fun e => decide (e.1 = k)) := by
  intro c
  induction c with
  | nil => intro _; rfl
  | cons e rest ih =>
    intro hlast
    cases rest with
    | nil =>
      have he : e.1 = (default : K) := hlast e rfl
      have hne : e.1 ≠ k := by rw [he]; exact fun hc => hk hc.symm
      simp [List.find?_cons, hne]
    | cons a r =>
      have hlast2 : ∀ e2, (a :: r).getLast? = some e2 → e2.1 = (default : K) := by
        intro e2 h2
        exact hlast e2 (by rw [List.getLast?_cons_cons]; exact h2)
      by_cases hp : e.1 = k
      · show _ = List.find? (fun e => decide (e.1 = k)) (e :: (a :: r).dropLast)
        simp [List.find?_cons, hp]
      · show _ = List.find? (fun e => decide (e.1 = k)) (e :: (a :: r).dropLast)
        simp only [List.find?_cons, decide_eq_false hp]
        rw [← ih hlast2]
        rfl

theorem find_key_eq_live_scan (k : K) (hk : k ≠ (default : K)) :
    ∀ m : List (List (K × V)),
      (∀ c ∈ m, ∀ e, c.getLast? = some e → e.1 = (default : K)) →
      find_key k m =
        (joinAll (m.map List.dropLast)).find? (fun e => decide (e.1 = k)) := by
  intro m
  induction m with
  | nil => intro _; rfl
  | cons c rest ih =>
    intro hall
    simp only [find_key, joinAll, List.map_cons]
    rw [List.find?_append,
        chain_find_skip_trailer k hk c (hall c (List.mem_cons_self c rest))]
    cases hf : c.dropLast.find? (fun e => decide (e.1 = k)) with
    | some e => simp [hf]
    | none =>
      simp only [hf, Option.none_or]
      exact ih (fun c2 hc2 => hall c2 (List.mem_cons_of_mem c hc2))

theorem sentinelKeysOk_spec (B : HashMap K V) (hB : sentinelKeysOk B = true) :
    ∀ c ∈ B.map, ∀ e, c.getLast? = some e → e.1 = (default : K) := by
  intro c hc e he
  have h1 := List.all_eq_true.mp hB c hc
  rw [he] at h1
  exact of_decide_eq_true h1

theorem index_const_eq_lookupLive (B : HashMap K V)
    (hB : sentinelKeysOk B = true) (k : K) (hk : k ≠ (default : K)) :
    index_const B k =
      match lookupLiveV B k with
      | some v => .ok v
      | none => .error .keyError := by
  unfold index_const lookupLiveV liveEntries
  rw [find_key_eq_live_scan k hk B.map (sentinelKeysOk_spec B hB)]
  cases hf : (joinAll (B.map.map List.dropLast)).find? (fun e => decide (e.1 = k)) with
  | some e => simp [hf]
  | none => simp [hf]

theorem eqChain_ok_true_iff (B : HashMap K V) (hB : sentinelKeysOk B = true) :
    ∀ l : List (K × V), (∀ e ∈ l, e.1 ≠ (default : K)) →
      (eqChain B l = .ok true ↔ ∀ e ∈ l, lookupLiveV B e.1 = some e.2) := by
  intro l
  induction l with
  | nil => intro _; simp [eqChain]
  | cons e rest ih =>
    intro hl
    have he : e.1 ≠ (default : K) := hl e (List.mem_cons_self e rest)
    have hrest := ih (fun a ha => hl a (List.mem_cons_of_mem e ha))
    have hstep : eqChain B (e :: rest) =
        match lookupLiveV B e.1 with
        | some v => if e.2 ≠ v then .ok false else eqChain B rest
        | none => .error .keyError := by
      simp only [eqChain, if_neg he]
      rw [index_const_eq_lookupLive B hB e.1 he]
      cases lookupLiveV B e.1 <;> rfl
    rw [hstep, List.forall_mem_cons]
    cases hv : lookupLiveV B e.1 with
    | none =>
      simp only [hv]
      constructor
      · intro hcontra; exact absurd hcontra (by simp)
      · intro hall; exact absurd hall.1 (by simp)
    | some v =>
      simp only [hv]
      by_cases hev : e.2 = v
      · have hnn : ¬ (e.2 ≠ v) := fun hc => hc hev
        rw [if_neg hnn, hrest]
        subst hev
        simp
      · rw [if_pos hev]
        constructor
        · intro hcontra; exact absurd hcontra (by simp)
        · intro hall
          exact absurd (Option.some.inj hall.1).symm hev

theorem eqBuckets_ok_true_iff (B : HashMap K V) (hB : sentinelKeysOk B = true) :
    ∀ m : List (List (K × V)),
      (∀ e ∈ joinAll (m.map List.dropLast), e.1 ≠ (default : K)) →
      (eqBuckets B m = .ok true ↔
        ∀ e ∈ joinAll (m.map List.dropLast), lookupLiveV B e.1 = some e.2) := by
  intro m
  induction m with
  | nil => intro _; simp [eqBuckets, joinAll]
  | cons c rest ih =>
    intro hm
    have hm2 : ∀ e ∈ c.dropLast ++ joinAll (rest.map List.dropLast),
        e.1 ≠ (default : K) := hm
    have hsplitm := List.forall_mem_append.mp hm2
    have hc := hsplitm.1
    have hrest := hsplitm.2
    simp only [eqBuckets, joinAll, List.map_cons]
    rw [List.forall_mem_append]
    cases hq : eqChain B c.dropLast with
    | error er =>
      simp only
      constructor
      · intro hcontra; exact absurd hcontra (by simp)
      · intro hall
        have h2 : eqChain B c.dropLast = .ok true :=
          (eqChain_ok_true_iff B hB c.dropLast hc).mpr hall.1
        rw [hq] at h2
        exact absurd h2 (by simp)
    | ok b =>
      cases b with
      | true =>
        have h1 := (eqChain_ok_true_iff B hB c.dropLast hc).mp hq
        simp only
        constructor
        · intro h2; exact ⟨h1, (ih hrest).mp h2⟩
        · intro h2; exact (ih hrest).mpr h2.2
      | false =>
        simp only
        constructor
        · intro hcontra; exact absurd hcontra (by simp)
        · intro hall
          have h2 : eqChain B c.dropLast = .ok true :=
            (eqChain_ok_true_iff B hB c.dropLast hc).mpr hall.1
          rw [hq] at h2
          exact absurd h2 (by simp)

end HashMap

/-- Claim C6 as amended: restricted to a left table none of whose live keys is
the default key `""` (those break the scan early, see the counterexample) and
a right table whose chains end in default-keyed trailers, `operator==`
returns true iff the `used` counts agree and every live entry of the left
table has a matching value for the same key in the right table — a condition
on `used` and the live entries alone, hence independent of insertion order
and of the internal bin count of either table.  Tables with different `used`
counts (e.g. one missing a pair) compare false without failing. -/
theorem C6_equality_amended {K V : Type} [DecidableEq K] [DecidableEq V]
    [Inhabited K] [Inhabited V] (A B : HashMap K V)
    (hA : noDefaultLiveKeys A = true) (hB : sentinelKeysOk B = true) :
    (eqOp A B = .ok true ↔
      (A.used = B.used ∧ ∀ e ∈ liveEntries A, lookupLiveV B e.1 = some e.2)) ∧
    (A.used ≠ B.used → eqOp A B = .ok false) := by
  have hA2 : ∀ e ∈ joinAll (A.map.map List.dropLast), e.1 ≠ (default : K) := by
    intro e he
    exact of_decide_eq_true (List.all_eq_true.mp hA e he)
  constructor
  · by_cases hu : A.used = B.used
    · have hcond : ¬ (A.used ≠ B.used) := fun hc => hc hu
      unfold eqOp
      rw [if_neg hcond]
      rw [eqBuckets_ok_true_iff B hB A.map hA2]
      exact ⟨fun h => ⟨hu, h⟩, fun h => h.2⟩
    · unfold eqOp
      rw [if_pos hu]
      constructor
      · intro hcontra; exact absurd hcontra (by simp)
      · intro h; exact absurd h.1 hu
  · intro hu
    simp [eqOp, hu]

/-- Witness for the amended C6: `exW1` (keys `"a"`, `"b"` inserted in that
order into 1 bin) equals `exW2` (same entries, other order, 2 bins); and
`exW1` compared with `exA` (which misses the pair `("b", 2)`, so `used`
differs) yields false without failing. -/
theorem C6_equality_witness :
    eqOp exW1 exW2 = .ok true ∧ eqOp exW1 exA = .ok false :=
  ⟨(C6_equality_amended exW1 exW2 (by decide) (by decide)).1.mpr (by decide),
   (C6_equality_amended exW1 exA (by decide) (by decide)).2 (by decide)⟩
